import Mathlib

/-!
Shallow embedding of the FIXExchange matching engine
(`src/server/src/exchange.rs`, with the message model of
`src/server/src/engine.rs` and the scalar types of `src/server/src/types.rs`),
together with proofs checking the natural-language specification against it.

Representation choices:
* `Price` (`f64` in `types.rs`) and account cash are embedded as `ℚ`; the
  engine only adds, subtracts, multiplies and compares prices, and every
  scenario in the specification uses small integral values, where `f64`
  arithmetic is exact.
* `Quantity` (`u64`) is embedded as `ℕ`; the `u64` subtractions on order
  quantities are guarded by `min` in the source and never underflow, while the
  unguarded `*pos -= qty` on the positions map is embedded with explicit
  wrapping modulo `2 ^ 64`.
* `BTreeMap<Price, VecDeque<Order>>` ladders are embedded as association
  lists ordered best-price-first: ascending keys for asks (the code reads
  `keys().next()`), descending keys for bids (the code reads `next_back()`),
  so in both cases the best level is the head.
* `HashMap`s whose iteration order the code never observes (`order_index`,
  `accounts`, `books`) are embedded as association lists; `books` is iterated
  by `CancelOrder`, and the list order stands for that iteration order.
-/

namespace FIXExchange

abbrev Price := ℚ
abbrev Quantity := ℕ
abbrev OrderID := ℕ
abbrev InstrumentID := String
abbrev AccountID := String

/-- Mirrors `types.rs` `ClientID { comp_id, sub_id }`. -/
structure ClientID where
  comp_id : String
  sub_id : Option String
deriving DecidableEq

inductive Side where
  | Buy
  | Sell
deriving DecidableEq

inductive OrdType where
  | Market
  | Limit
  | Stop
  | StopLimit
deriving DecidableEq

inductive TimeInForce where
  | Day
  | ImmediateOrCancel
  | FillOrKill
deriving DecidableEq

/-- Mirrors `exchange.rs` `struct Order` (the constant `exec_instruction` field, never
read by the engine, is omitted; timestamps are carried as naturals). -/
structure Order where
  order_id : OrderID
  client_order_id : String
  price : Price
  quantity : Quantity
  send_timestamp : ℕ
  receive_timestamp : ℕ
  side : Side
  order_type : OrdType
  time_in_force : TimeInForce
  instrument_id : InstrumentID
  account_id : AccountID
  sender_id : ClientID
deriving DecidableEq

/-- Mirrors `engine.rs` `enum EngineMessage`, restricted to the variants the exchange
constructs or inspects (`exchange.rs` reads `client_id` from `AmendOrder` and
`AdvanceTime` and builds `LogEvent` with an optional client, so those shapes
are taken from `exchange.rs`). -/
inductive EngineMessage where
  | NewOrder (sending_time receiving_time : ℕ) (client_id : ClientID)
      (account_id : AccountID) (client_order_id : Option String)
      (instrument_id : InstrumentID) (order_type : OrdType) (side : Side)
      (quantity : Quantity) (price : Option Price)
      (time_in_force : Option TimeInForce)
  | CancelOrder (sending_time receiving_time : ℕ) (client_id : ClientID)
      (account_id : AccountID) (order_id : OrderID)
  | CreateInstrument (sending_time receiving_time : ℕ)
      (instrument_id : InstrumentID)
  | AmendOrder (sending_time receiving_time : ℕ) (client_id : ClientID)
      (order_id : OrderID) (new_quantity : Option Quantity)
      (new_price : Option Price) (time_in_force : Option TimeInForce)
  | AdvanceTime (sending_time receiving_time : ℕ) (client_id : ClientID)
      (timestamp : ℕ)
  | OrderAccepted (client_id : ClientID) (order_id : OrderID)
  | OrderRejected (reason : String) (client_id : ClientID)
  | OrderFilled (client_id : ClientID) (order_id : OrderID)
      (filled_quantity remaining_quantity : Quantity) (price : Price)
      (instrument_id : InstrumentID)
  | OrderCancelled (client_id : ClientID) (order_id : OrderID)
  | InvalidMessage (reason raw_message : String)
  | LogEvent (client_id : Option ClientID) (message : String)
deriving DecidableEq

/-! ### Association-list primitives for the embedded maps -/

def alGet {α β : Type} [DecidableEq α] : List (α × β) → α → Option β
  | [], _ => none
  | (k, v) :: rest, k1 => if k1 = k then some v else alGet rest k1

def alSet {α β : Type} [DecidableEq α] : List (α × β) → α → β → List (α × β)
  | [], _, _ => []
  | (k, v) :: rest, k1, v1 => if k1 = k then (k, v1) :: rest else (k, v) :: alSet rest k1 v1

def alErase {α β : Type} [DecidableEq α] : List (α × β) → α → List (α × β)
  | [], _ => []
  | (k, v) :: rest, k1 => if k1 = k then rest else (k, v) :: alErase rest k1

/-- Mirrors `HashMap::insert`: overwrite in place when present, otherwise add. -/
def alInsert {α β : Type} [DecidableEq α] (l : List (α × β)) (k : α) (v : β) :
    List (α × β) :=
  if (alGet l k).isSome then alSet l k v else l ++ [(k, v)]

/-- Mirrors `get_mut` followed by a mutation: modify when present, otherwise no-op. -/
def alModify {α β : Type} [DecidableEq α] : List (α × β) → α → (β → β) → List (α × β)
  | [], _, _ => []
  | (k, v) :: rest, k1, f => if k1 = k then (k, f v) :: rest else (k, v) :: alModify rest k1 f

/-- Mirrors `entry(k).and_modify(f).or_insert(d)`. -/
def alEntryModify {α β : Type} [DecidableEq α] (l : List (α × β)) (k : α)
    (f : β → β) (d : β) : List (α × β) :=
  if (alGet l k).isSome then alModify l k f else l ++ [(k, d)]

/-! ### Ledger -/

/-- The modulus `2 ^ 64`; positions are `u64` in `types.rs`. -/
def u64Mod : ℕ := 2 ^ 64

/-- Wrapping `u64` addition for the positions map. -/
def u64add (a b : ℕ) : ℕ := (a + b) % u64Mod

/-- Wrapping `u64` subtraction for the positions map (`*pos -= qty`). -/
def u64sub (a b : ℕ) : ℕ := (a + (u64Mod - b % u64Mod)) % u64Mod

/-- Mirrors `exchange.rs` `struct Bankroll`. -/
structure Bankroll where
  cash : ℚ
  positions : List (InstrumentID × Quantity)
deriving DecidableEq

abbrev Accounts := List (AccountID × Bankroll)

/-- Mirrors `.entry(i).and_modify(|pos| *pos += q).or_insert(q)` (buy side of a fill,
also the sell-cancel position restore). -/
def posAdd (ps : List (InstrumentID × Quantity)) (i : InstrumentID) (q : Quantity) :
    List (InstrumentID × Quantity) :=
  alEntryModify ps i (fun v => u64add v q) q

/-- Mirrors `.entry(i).and_modify(|pos| *pos -= q).or_insert(0)` (sell side of a fill). -/
def posSub (ps : List (InstrumentID × Quantity)) (i : InstrumentID) (q : Quantity) :
    List (InstrumentID × Quantity) :=
  alEntryModify ps i (fun v => u64sub v q) 0

/-! ### Order book -/

abbrev Ladder := List (Price × List Order)
abbrev OrderIndex := List (OrderID × Order)

/-- Mirrors `exchange.rs` `struct OrderBook`. -/
structure OrderBook where
  bids : Ladder
  asks : Ladder
  order_index : OrderIndex
deriving DecidableEq

def OrderBook.empty : OrderBook := ⟨[], [], []⟩

/-- Mirrors `entry(price).or_default().push_back(order)` on the ask ladder, whose
keys ascend (best ask at the head). -/
def ladderPushAsc : Ladder → Price → Order → Ladder
  | [], p, o => [(p, [o])]
  | (k, q) :: rest, p, o =>
    if p = k then (k, q ++ [o]) :: rest
    else if p < k then (p, [o]) :: (k, q) :: rest
    else (k, q) :: ladderPushAsc rest p o

/-- Mirrors `entry(price).or_default().push_back(order)` on the bid ladder, whose
keys descend (best bid at the head). -/
def ladderPushDesc : Ladder → Price → Order → Ladder
  | [], p, o => [(p, [o])]
  | (k, q) :: rest, p, o =>
    if p = k then (k, q ++ [o]) :: rest
    else if k < p then (p, [o]) :: (k, q) :: rest
    else (k, q) :: ladderPushDesc rest p o

/-- Account settlement in the Buy arm of `match_order` (`exchange.rs`
156–173): the aggressor `order` buys from resting order `ask` at level price
`p` for `q` units. -/
def settleBuy (accounts : Accounts) (order ask : Order) (p : Price) (q : Quantity) :
    Accounts :=
  let a1 := alModify accounts order.account_id fun acc =>
    { acc with cash := acc.cash - p * (q : ℚ),
               positions := posAdd acc.positions order.instrument_id q }
  alModify a1 ask.account_id fun acc =>
    { acc with cash := acc.cash + p * (q : ℚ),
               positions := posSub acc.positions ask.instrument_id q }

/-- Account settlement in the Sell arm of `match_order` (`exchange.rs`
259–276): the aggressor `order` sells to resting order `bid` at level price
`p` for `q` units. -/
def settleSell (accounts : Accounts) (order bid : Order) (p : Price) (q : Quantity) :
    Accounts :=
  let a1 := alModify accounts order.account_id fun acc =>
    { acc with cash := acc.cash + p * (q : ℚ),
               positions := posSub acc.positions order.instrument_id q }
  alModify a1 bid.account_id fun acc =>
    { acc with cash := acc.cash - p * (q : ℚ),
               positions := posAdd acc.positions bid.instrument_id q }

/-! ### Matching -/

/-- Result of `OrderBook::match_order`: the emitted fill messages plus the
mutated book and accounts (mutable borrows in the source). -/
structure MatchResult where
  fills : List EngineMessage
  book : OrderBook
  accounts : Accounts
deriving DecidableEq

/-- The inner `while order.quantity > 0 && !queue.is_empty()` loop of
`match_order` (`exchange.rs` 135–186 for Buy, 238–288 for Sell; the two arms
are syntactically parallel and differ only in the ledger update `settle`).
Sweeps the FIFO queue at level price `p`, the aggressor having remaining
quantity `q`. -/
def sweepQueue (settle : Accounts → Order → Order → Price → Quantity → Accounts)
    (order : Order) :
    Quantity → Price → List Order → OrderIndex → Accounts →
    List EngineMessage × Quantity × List Order × OrderIndex × Accounts
  | q, _, [], index, accounts => ([], q, [], index, accounts)
  | q, p, best :: restQ, index, accounts =>
    if q = 0 then ([], 0, best :: restQ, index, accounts)
    else
      let tq := min q best.quantity
      let ms : List EngineMessage :=
        [.OrderFilled order.sender_id order.order_id tq (q - tq) p order.instrument_id,
         .OrderFilled best.sender_id best.order_id tq (best.quantity - tq) p best.instrument_id]
      let accounts1 := settle accounts order best p tq
      if q < best.quantity then
        -- resting order partially filled: shrink it and push it back in front
        (ms, 0, { best with quantity := best.quantity - q } :: restQ, index, accounts1)
      else
        -- resting order fully filled: drop it from queue and order index
        let index1 := alErase index best.order_id
        match sweepQueue settle order (q - best.quantity) p restQ index1 accounts1 with
        | (m2, q2, queue2, index2, accounts2) => (ms ++ m2, q2, queue2, index2, accounts2)

/-- The outer `while order.quantity > 0` loop of `match_order`
(`exchange.rs` 127–196 for Buy, 230–299 for Sell). The opposite ladder is
ordered best-first, so the code's `keys().next()` / `keys().next_back()` is
the head; `priceOk` is the aggressor's limit filter on a level key
(`order.price >= *p` for Buy, `order.price <= *p` for Sell), bypassed for
Market orders. The loop re-enters only when the inner sweep left remaining
quantity, which happens only once the level's queue is empty, whereupon the
code deletes the emptied level — hence the recursion on `rest`. -/
def matchLoop (settle : Accounts → Order → Order → Price → Quantity → Accounts)
    (priceOk : Price → Bool) (isMarket : Bool) (order : Order) :
    Quantity → Ladder → OrderIndex → Accounts →
    List EngineMessage × Quantity × Ladder × OrderIndex × Accounts
  | q, [], index, accounts => ([], q, [], index, accounts)
  | q, (p, queue) :: rest, index, accounts =>
    if q = 0 then ([], q, (p, queue) :: rest, index, accounts)
    else if isMarket || priceOk p then
      match sweepQueue settle order q p queue index accounts with
      | (ms, q1, queue1, index1, accounts1) =>
        if q1 = 0 then
          (ms, 0, (if queue1 = [] then rest else (p, queue1) :: rest), index1, accounts1)
        else
          match matchLoop settle priceOk isMarket order q1 rest index1 accounts1 with
          | (m2, q2, rest2, index2, accounts2) => (ms ++ m2, q2, rest2, index2, accounts2)
    else ([], q, (p, queue) :: rest, index, accounts)

/-- The Stop / StopLimit trigger check at the head of `match_order`
(`exchange.rs` 59–122). `none` means the order is not triggered (or no
opposite price exists) and `match_order` returns immediately with no fills —
the "buffer order" comments notwithstanding, nothing is buffered. `some`
carries the order with its type mutated in place for matching. -/
def stopCheck (book : OrderBook) (order0 : Order) : Option Order :=
  match order0.order_type with
  | OrdType.Stop =>
    match order0.side with
    | Side.Buy =>
      match book.asks.head? with
      | some (bp, _) =>
        if bp < order0.price then none
        else some { order0 with order_type := OrdType.Market }
      | none => none
    | Side.Sell =>
      match book.bids.head? with
      | some (bp, _) =>
        if order0.price < bp then none
        else some { order0 with order_type := OrdType.Market }
      | none => none
  | OrdType.StopLimit =>
    match order0.side with
    | Side.Buy =>
      match book.asks.head? with
      | some (bp, _) =>
        if bp < order0.price then none
        else some { order0 with order_type := OrdType.Limit }
      | none => none
    | Side.Sell =>
      match book.bids.head? with
      | some (bp, _) =>
        if order0.price < bp then none
        else some { order0 with order_type := OrdType.Limit }
      | none => none
  | _ => some order0

/-- Mirrors `OrderBook::match_order` (`exchange.rs` 56–335). The IOC and FOK arms of
the time-in-force match (198–219 / 301–322) both simply return the fills
accumulated so far — neither posts the residual, emits a cancel event, or
rolls anything back — so they produce the same state. The Day (catch-all)
arm posts any residual at `order.price` and records it in the order index. -/
def OrderBook.match_order (book : OrderBook) (order0 : Order) (accounts : Accounts) :
    MatchResult :=
  match stopCheck book order0 with
  | none => ⟨[], book, accounts⟩
  | some order =>
    match order.side with
    | Side.Buy =>
      match matchLoop settleBuy (fun p => decide (order.price ≥ p))
          (decide (order.order_type = OrdType.Market)) order
          order.quantity book.asks book.order_index accounts with
      | (fills, q1, asks1, index1, accounts1) =>
        match order.time_in_force with
        | TimeInForce.ImmediateOrCancel =>
          ⟨fills, { book with asks := asks1, order_index := index1 }, accounts1⟩
        | TimeInForce.FillOrKill =>
          ⟨fills, { book with asks := asks1, order_index := index1 }, accounts1⟩
        | TimeInForce.Day =>
          if 0 < q1 then
            let posted := { order with quantity := q1 }
            ⟨fills, { bids := ladderPushDesc book.bids order.price posted,
                      asks := asks1,
                      order_index := alInsert index1 order.order_id posted },
             accounts1⟩
          else ⟨fills, { book with asks := asks1, order_index := index1 }, accounts1⟩
    | Side.Sell =>
      match matchLoop settleSell (fun p => decide (order.price ≤ p))
          (decide (order.order_type = OrdType.Market)) order
          order.quantity book.bids book.order_index accounts with
      | (fills, q1, bids1, index1, accounts1) =>
        match order.time_in_force with
        | TimeInForce.ImmediateOrCancel =>
          ⟨fills, { book with bids := bids1, order_index := index1 }, accounts1⟩
        | TimeInForce.FillOrKill =>
          ⟨fills, { book with bids := bids1, order_index := index1 }, accounts1⟩
        | TimeInForce.Day =>
          if 0 < q1 then
            let posted := { order with quantity := q1 }
            ⟨fills, { bids := bids1,
                      asks := ladderPushAsc book.asks order.price posted,
                      order_index := alInsert index1 order.order_id posted },
             accounts1⟩
          else ⟨fills, { book with bids := bids1, order_index := index1 }, accounts1⟩

/-- Remove the first order with the given id from a FIFO queue
(`queue.iter().position(..)` followed by `queue.remove(idx)`). -/
def removeFirstById : List Order → OrderID → Option (List Order)
  | [], _ => none
  | o :: rest, oid =>
    if o.order_id = oid then some rest
    else (removeFirstById rest oid).map (o :: ·)

/-- Refund on cancellation (`exchange.rs` 355–371): a cancelled buy gets cash
`price * quantity` back, `quantity` being the one recorded in the order
index; a cancelled sell gets `quantity` added to its position — no cash. -/
def cancelRefund (accounts : Accounts) (ord : Order) : Accounts :=
  match ord.side with
  | Side.Buy => alModify accounts ord.account_id fun acc =>
      { acc with cash := acc.cash + ord.price * (ord.quantity : ℚ) }
  | Side.Sell => alModify accounts ord.account_id fun acc =>
      { acc with positions := posAdd acc.positions ord.instrument_id ord.quantity }

/-- Mirrors `OrderBook::remove_order` (`exchange.rs` 337–377). `none` corresponds to
returning `false` with no mutation. -/
def OrderBook.remove_order (book : OrderBook) (oid : OrderID) (accounts : Accounts) :
    Option (OrderBook × Accounts) :=
  match alGet book.order_index oid with
  | none => none
  | some ord =>
    let ladder := match ord.side with
      | Side.Buy => book.bids
      | Side.Sell => book.asks
    match alGet ladder ord.price with
    | none => none
    | some queue =>
      match removeFirstById queue oid with
      | none => none
      | some queue1 =>
        let ladder1 := if queue1 = [] then alErase ladder ord.price
                       else alSet ladder ord.price queue1
        let index1 := alErase book.order_index oid
        let accounts1 := cancelRefund accounts ord
        let book1 := match ord.side with
          | Side.Buy => { book with bids := ladder1, order_index := index1 }
          | Side.Sell => { book with asks := ladder1, order_index := index1 }
        some (book1, accounts1)

/-! ### The exchange -/

/-- Mirrors `exchange.rs` `struct Exchange`. -/
structure Exchange where
  order_counter : OrderID
  accounts : Accounts
  books : List (InstrumentID × OrderBook)
deriving DecidableEq

/-- Mirrors `Exchange::new`. -/
def Exchange.new : Exchange := ⟨1, [], []⟩

/-- Mirrors `self.accounts.entry(account_id).or_insert_with(|| Bankroll { cash: 1000.0, .. })`
— note this runs before the funds check, so even a rejected order creates the
account. -/
def touchAccounts (accounts : Accounts) (aid : AccountID) : Accounts :=
  if (alGet accounts aid).isSome then accounts else accounts ++ [(aid, ⟨1000, []⟩)]

def bankrollOf (accounts : Accounts) (aid : AccountID) : Bankroll :=
  (alGet accounts aid).getD ⟨1000, []⟩

/-- The NewOrder arm of `Exchange::handle_message` (`exchange.rs` 413–491),
returning the state plus the full `responses` vector the code builds. The
code itself then returns only `responses.remove(0)` (its own comments call
this out as a limitation of the `Option<EngineMessage>` return type). -/
def Exchange.newOrderFull (ex : Exchange) (sending_time receiving_time : ℕ)
    (client_id : ClientID) (account_id : AccountID)
    (client_order_id : Option String) (instrument_id : InstrumentID)
    (order_type : OrdType) (side : Side) (quantity : Quantity)
    (price : Option Price) (time_in_force : Option TimeInForce) :
    Exchange × List EngineMessage :=
  if (alGet ex.books instrument_id).isSome then
    let unit_price := price.getD 0
    let total_cost : ℚ := unit_price * (quantity : ℚ)
    let accounts1 := touchAccounts ex.accounts account_id
    if (bankrollOf accounts1 account_id).cash < total_cost then
      ({ ex with accounts := accounts1 },
       [.OrderRejected "Insufficient funds" client_id])
    else
      let accounts2 := alModify accounts1 account_id fun acc =>
        { acc with cash := acc.cash - total_cost }
      let order_id := ex.order_counter
      let order : Order :=
        { order_id := order_id
          client_order_id := client_order_id.getD ""
          price := (price.getD 0 : Price)
          quantity := quantity
          send_timestamp := sending_time
          receive_timestamp := receiving_time
          side := side
          order_type := order_type
          time_in_force := time_in_force.getD TimeInForce.Day
          instrument_id := instrument_id
          account_id := account_id
          sender_id := client_id }
      let book := (alGet ex.books instrument_id).getD OrderBook.empty
      let res := book.match_order order accounts2
      let responses := res.fills ++ [.OrderAccepted client_id order_id]
      ({ order_counter := order_id + 1,
         accounts := res.accounts,
         books := alSet ex.books instrument_id res.book }, responses)
  else
    (ex, [.OrderRejected "Unknown instrument" client_id])

/-- The `for (_instrument, book) in &mut self.books` loop of the CancelOrder
arm (`exchange.rs` 503–511): the first book whose `remove_order` succeeds is
mutated and the loop returns. -/
def cancelFromBooks : List (InstrumentID × OrderBook) → OrderID → Accounts →
    Option (List (InstrumentID × OrderBook) × Accounts)
  | [], _, _ => none
  | (iid, book) :: rest, oid, accounts =>
    match book.remove_order oid accounts with
    | some (book1, accounts1) => some ((iid, book1) :: rest, accounts1)
    | none =>
      match cancelFromBooks rest oid accounts with
      | some (rest1, accounts1) => some ((iid, book) :: rest1, accounts1)
      | none => none

/-- Mirrors `Exchange::handle_message` (`exchange.rs` 402–540). The returned
`Option EngineMessage` is the single message the code sends back — for a
NewOrder, the head of the `responses` vector. -/
def Exchange.handle_message (ex : Exchange) (msg : EngineMessage) :
    Exchange × Option EngineMessage :=
  match msg with
  | .CreateInstrument _ _ instrument_id =>
    let books1 := if (alGet ex.books instrument_id).isSome then ex.books
                  else ex.books ++ [(instrument_id, OrderBook.empty)]
    ({ ex with books := books1 }, none)
  | .NewOrder st rt client_id account_id client_order_id instrument_id
      order_type side quantity price time_in_force =>
    match ex.newOrderFull st rt client_id account_id client_order_id
        instrument_id order_type side quantity price time_in_force with
    | (ex1, responses) => (ex1, responses.head?)
  | .CancelOrder _ _ client_id _ order_id =>
    match cancelFromBooks ex.books order_id ex.accounts with
    | some (books1, accounts1) =>
      ({ ex with books := books1, accounts := accounts1 },
       some (.OrderCancelled client_id order_id))
    | none => (ex, some (.OrderRejected "Order not found" client_id))
  | .AmendOrder _ _ client_id _ _ _ _ =>
    (ex, some (.LogEvent (some client_id) "Amend not yet implemented"))
  | .AdvanceTime _ _ client_id _ =>
    (ex, some (.LogEvent (some client_id) "AdvanceTime not yet implemented"))
  | _ => (ex, some (.LogEvent none "Unsupported message received"))

/-- Run a command sequence from a given state (the single-writer dispatch
loop), discarding replies. -/
def runCmds : Exchange → List EngineMessage → Exchange
  | ex, [] => ex
  | ex, m :: rest => runCmds (ex.handle_message m).1 rest

/-! ### Derived observations used in the claims -/

def bookAt (ex : Exchange) (iid : InstrumentID) : OrderBook :=
  (alGet ex.books iid).getD OrderBook.empty

def bestBid (ex : Exchange) (iid : InstrumentID) : Option Price :=
  ((bookAt ex iid).bids.head?).map Prod.fst

def bestAsk (ex : Exchange) (iid : InstrumentID) : Option Price :=
  ((bookAt ex iid).asks.head?).map Prod.fst

/-- The opposite ladder an aggressor of the given side matches against. -/
def oppLadder (b : OrderBook) : Side → Ladder
  | Side.Buy => b.asks
  | Side.Sell => b.bids

/-- All order ids resting in a ladder. -/
def ladderIds : Ladder → List OrderID
  | [] => []
  | (_, q) :: rest => q.map (fun o => o.order_id) ++ ladderIds rest

/-- All order ids resting in either ladder of a book. -/
def restingIds (b : OrderBook) : List OrderID :=
  ladderIds b.bids ++ ladderIds b.asks

/-- Total cash across all accounts. -/
def sumCash (accounts : Accounts) : ℚ :=
  (accounts.map (fun a => a.2.cash)).sum

/-- Total position across all accounts for one instrument. -/
def sumPositions (accounts : Accounts) (iid : InstrumentID) : ℕ :=
  (accounts.map (fun a => (alGet a.2.positions iid).getD 0)).sum

/-! ### Concrete scenarios from §8 of the specification -/

def cCA : ClientID := ⟨"CA", none⟩
def cCB : ClientID := ⟨"CB", none⟩

def createX : EngineMessage := .CreateInstrument 0 0 "X"

def sellA_5at10 : EngineMessage :=
  .NewOrder 0 0 cCA "A" none "X" OrdType.Limit Side.Sell 5 (some 10) none

def buyB_5at10 : EngineMessage :=
  .NewOrder 0 0 cCB "B" none "X" OrdType.Limit Side.Buy 5 (some 10) none

/-- Scenario 1 of §8: CreateInstrument X; A sells 5 @ 10; B buys 5 @ 10. -/
def exScen1 : Exchange := runCmds Exchange.new [createX, sellA_5at10, buyB_5at10]

/-- State after CreateInstrument X and A's resting sell 5 @ 10. -/
def exAfterSell : Exchange := runCmds Exchange.new [createX, sellA_5at10]

/-- C1. The specified simple-limit-cross scenario, evaluated on the code: the
orders do cross and fill 5 @ 10, but the final ledger is A.cash = 1000,
A.pos[X] = 0, B.cash = 900, B.pos[X] = 5 — not the specified A.cash = 1050,
A.pos[X] = −5, B.cash = 950, B.pos[X] = +5. The acceptance step deducts
price × qty from BOTH sides and never refunds the buyer's reservation when
the fill settles (double charge), and the seller's `u64` position is created
at 0 instead of going to −5. -/
theorem C1_simple_limit_cross_code_result :
    exScen1.accounts = [("A", ⟨1000, [("X", 0)]⟩), ("B", ⟨900, [("X", 5)]⟩)]
    ∧ exScen1.books = [("X", OrderBook.empty)]
    ∧ exScen1.order_counter = 3 := by
  norm_num [exScen1, runCmds, Exchange.handle_message, Exchange.newOrderFull,
    OrderBook.match_order, stopCheck, matchLoop, sweepQueue, settleBuy, settleSell,
    touchAccounts, bankrollOf, alGet, alSet, alErase, alInsert, alModify,
    alEntryModify, posAdd, posSub, u64add, u64sub, u64Mod, ladderPushAsc, ladderPushDesc,
    OrderBook.empty, Exchange.new, cCA, cCB, createX, sellA_5at10, buyB_5at10]
  decide

/-- C2. Cash conservation and position symmetry are violated after the very
first fill pair: in scenario 1 both accounts were endowed 1000 (total 2000)
and no order is left resting (so no in-flight reservation), yet total cash
is 1900, and the total position in X is +5 rather than 0. -/
theorem C2_conservation_violated :
    sumCash exScen1.accounts = 1900
    ∧ sumPositions exScen1.accounts "X" = 5
    ∧ restingIds (bookAt exScen1 "X") = [] := by
  norm_num [exScen1, runCmds, Exchange.handle_message, Exchange.newOrderFull,
    OrderBook.match_order, stopCheck, matchLoop, sweepQueue, settleBuy, settleSell,
    touchAccounts, bankrollOf, alGet, alSet, alErase, alInsert, alModify,
    alEntryModify, posAdd, posSub, u64add, u64sub, u64Mod, ladderPushAsc, ladderPushDesc,
    OrderBook.empty, Exchange.new, cCA, cCB, createX, sellA_5at10, buyB_5at10,
    sumCash, sumPositions, restingIds, ladderIds, bookAt,
    List.sum, List.foldr, List.map]

/-- C3. Event emission is incomplete: B's crossing NewOrder generates three
events — aggressor fill, resting fill, then the aggressor's OrderAccepted —
but `handle_message` returns only the first of them (its `Option` return
type drops the resting fill and the disposition event). -/
theorem C3_events_dropped :
    (exAfterSell.newOrderFull 0 0 cCB "B" none "X" OrdType.Limit Side.Buy 5
        (some 10) none).2
      = [.OrderFilled cCB 2 5 0 10 "X", .OrderFilled cCA 1 5 0 10 "X",
         .OrderAccepted cCB 2]
    ∧ (exAfterSell.handle_message buyB_5at10).2
      = some (.OrderFilled cCB 2 5 0 10 "X") := by
  norm_num [exAfterSell, runCmds, Exchange.handle_message, Exchange.newOrderFull,
    OrderBook.match_order, stopCheck, matchLoop, sweepQueue, settleBuy, settleSell,
    touchAccounts, bankrollOf, alGet, alSet, alErase, alInsert, alModify,
    alEntryModify, posAdd, posSub, u64add, u64sub, u64Mod, ladderPushAsc, ladderPushDesc,
    OrderBook.empty, Exchange.new, cCA, cCB, createX, sellA_5at10, buyB_5at10]
  decide

/-- State with a single resting ask 3 @ 10 from account A. -/
def exAsk3 : Exchange := runCmds Exchange.new
  [createX, .NewOrder 0 0 cCA "A" none "X" OrdType.Limit Side.Sell 3 (some 10) none]

/-- C5. FOK is not atomic and has no pre-check: against a lone resting ask
3 @ 10, a FOK buy 5 @ 10 emits two partial fills (3 @ 10), consumes the
resting ask (the book is left empty, not untouched), mutates both ledgers,
and emits no OrderCancelled. -/
theorem C5_fok_partial_fills :
    (exAsk3.newOrderFull 0 0 cCB "B" none "X" OrdType.Limit Side.Buy 5
        (some 10) (some TimeInForce.FillOrKill)).2
      = [.OrderFilled cCB 2 3 2 10 "X", .OrderFilled cCA 1 3 0 10 "X",
         .OrderAccepted cCB 2]
    ∧ bookAt (exAsk3.newOrderFull 0 0 cCB "B" none "X" OrdType.Limit Side.Buy 5
        (some 10) (some TimeInForce.FillOrKill)).1 "X" = OrderBook.empty
    ∧ bankrollOf (exAsk3.newOrderFull 0 0 cCB "B" none "X" OrdType.Limit Side.Buy 5
        (some 10) (some TimeInForce.FillOrKill)).1.accounts "B"
      = ⟨920, [("X", 3)]⟩ := by
  norm_num [exAsk3, runCmds, Exchange.handle_message, Exchange.newOrderFull,
    OrderBook.match_order, stopCheck, matchLoop, sweepQueue, settleBuy, settleSell,
    touchAccounts, bankrollOf, alGet, alSet, alErase, alInsert, alModify,
    alEntryModify, posAdd, posSub, u64add, u64sub, u64Mod, ladderPushAsc, ladderPushDesc,
    OrderBook.empty, Exchange.new, cCA, cCB, createX, bookAt]
  decide

/-- Scenario: a bid 1 @ 20 rests; A submits an untriggered StopLimit sell
(trigger/limit 10, best bid 20 > 10 so the trigger condition fails). -/
def exStopScen : Exchange := runCmds Exchange.new
  [createX,
   .NewOrder 0 0 cCB "B" none "X" OrdType.Limit Side.Buy 1 (some 20) none,
   .NewOrder 0 0 cCA "A" none "X" OrdType.StopLimit Side.Sell 2 (some 10) none]

/-- C7. There is no stop book: an untriggered StopLimit sell is simply
dropped. After the scenario the book holds only B's bid; order id 2 was
allocated but rests nowhere, A's reservation of 20 stays deducted, and a
subsequent cancel of id 2 is rejected "Order not found". -/
theorem C7_stop_dropped_not_parked :
    bookAt exStopScen "X"
      = ⟨[(20, [⟨1, "", 20, 1, 0, 0, Side.Buy, OrdType.Limit, TimeInForce.Day,
                 "X", "B", cCB⟩])], [],
         [(1, ⟨1, "", 20, 1, 0, 0, Side.Buy, OrdType.Limit, TimeInForce.Day,
               "X", "B", cCB⟩)]⟩
    ∧ bankrollOf exStopScen.accounts "A" = ⟨980, []⟩
    ∧ exStopScen.order_counter = 3
    ∧ (exStopScen.handle_message (.CancelOrder 0 0 cCA "A" 2)).2
      = some (.OrderRejected "Order not found" cCA) := by
  norm_num [exStopScen, runCmds, Exchange.handle_message, Exchange.newOrderFull,
    OrderBook.match_order, stopCheck, matchLoop, sweepQueue, settleBuy, settleSell,
    touchAccounts, bankrollOf, alGet, alSet, alErase, alInsert, alModify,
    alEntryModify, posAdd, posSub, u64add, u64sub, u64Mod, ladderPushAsc, ladderPushDesc,
    OrderBook.empty, Exchange.new, cCA, cCB, createX, bookAt,
    cancelFromBooks, OrderBook.remove_order, cancelRefund, removeFirstById]
  all_goals decide

/-- A Market Day buy submitted to an empty book. -/
def exMkt : Exchange := runCmds Exchange.new
  [createX, .NewOrder 0 0 cCB "B" none "X" OrdType.Market Side.Buy 5 none none]

/-- C8 counterexample. A Market order with Day time-in-force whose remainder
could not fill is NOT discarded: the unfilled Market buy is posted to the
bid ladder at its price field (0, since no price was supplied) and rests
there as a Market order. -/
theorem C8_market_residual_posted :
    (bookAt exMkt "X").bids
      = [(0, [⟨1, "", 0, 5, 0, 0, Side.Buy, OrdType.Market, TimeInForce.Day,
              "X", "B", cCB⟩])] := by
  norm_num [exMkt, runCmds, Exchange.handle_message, Exchange.newOrderFull,
    OrderBook.match_order, stopCheck, matchLoop, sweepQueue, settleBuy, settleSell,
    touchAccounts, bankrollOf, alGet, alSet, alErase, alInsert, alModify,
    alEntryModify, posAdd, posSub, u64add, u64sub, u64Mod, ladderPushAsc, ladderPushDesc,
    OrderBook.empty, Exchange.new, cCB, createX, bookAt]

/-- C9. Cancelling a resting SELL does not release the seller's cash
reservation (taken at acceptance) and it DOES change a position: A places
sell 5 @ 10 (cash 1000 → 950), cancels it, and ends with cash still 950 and
a position of +5 in X created out of nothing. -/
theorem C9_sell_cancel_wrong_refund :
    (exAfterSell.handle_message (.CancelOrder 0 0 cCA "A" 1)).2
      = some (.OrderCancelled cCA 1)
    ∧ bankrollOf (exAfterSell.handle_message (.CancelOrder 0 0 cCA "A" 1)).1.accounts "A"
      = ⟨950, [("X", 5)]⟩
    ∧ bookAt (exAfterSell.handle_message (.CancelOrder 0 0 cCA "A" 1)).1 "X"
      = OrderBook.empty := by
  norm_num [exAfterSell, runCmds, Exchange.handle_message, Exchange.newOrderFull,
    OrderBook.match_order, stopCheck, matchLoop, sweepQueue, settleBuy, settleSell,
    touchAccounts, bankrollOf, alGet, alSet, alErase, alInsert, alModify,
    alEntryModify, posAdd, posSub, u64add, u64sub, u64Mod, ladderPushAsc, ladderPushDesc,
    OrderBook.empty, Exchange.new, cCA, createX, sellA_5at10, bookAt,
    cancelFromBooks, OrderBook.remove_order, cancelRefund, removeFirstById]

/-! ### Association-list lemmas -/

theorem alGet_mem {α β : Type} [DecidableEq α] :
    ∀ {l : List (α × β)} {k : α} {v : β}, alGet l k = some v → (k, v) ∈ l := by
  intro l
  induction l with
  | nil => intro k v h; simp [alGet] at h
  | cons kv rest ih =>
    intro k v h
    obtain ⟨k1, v1⟩ := kv
    rw [alGet] at h
    split at h
    · next heq =>
      injection h with h2
      subst heq; subst h2
      exact List.mem_cons_self _ _
    · exact List.mem_cons_of_mem _ (ih h)

theorem alSet_mem {α β : Type} [DecidableEq α] :
    ∀ {l : List (α × β)} {k : α} {v : β} {x : α × β},
      x ∈ alSet l k v → x.2 = v ∨ x ∈ l := by
  intro l
  induction l with
  | nil => intro k v x h; simp [alSet] at h
  | cons kv rest ih =>
    intro k v x h
    obtain ⟨k1, v1⟩ := kv
    rw [alSet] at h
    split at h
    · rcases List.mem_cons.mp h with h1 | h1
      · left; rw [h1]
      · right; exact List.mem_cons_of_mem _ h1
    · rcases List.mem_cons.mp h with h1 | h1
      · right; rw [h1]; exact List.mem_cons_self _ _
      · rcases ih h1 with h2 | h2
        · left; exact h2
        · right; exact List.mem_cons_of_mem _ h2

theorem alSet_map_fst {α β : Type} [DecidableEq α] :
    ∀ (l : List (α × β)) (k : α) (v : β),
      (alSet l k v).map Prod.fst = l.map Prod.fst := by
  intro l
  induction l with
  | nil => intro k v; rfl
  | cons kv rest ih =>
    intro k v
    obtain ⟨k1, v1⟩ := kv
    rw [alSet]
    split
    · rfl
    · simp [ih]

theorem alErase_sublist {α β : Type} [DecidableEq α] :
    ∀ (l : List (α × β)) (k : α), List.Sublist (alErase l k) l := by
  intro l
  induction l with
  | nil => intro k; simp [alErase]
  | cons kv rest ih =>
    intro k
    obtain ⟨k1, v1⟩ := kv
    rw [alErase]
    split
    · exact List.sublist_cons_self _ _
    · exact List.Sublist.cons₂ _ (ih k)

theorem alGet_alSet_self {α β : Type} [DecidableEq α] :
    ∀ {l : List (α × β)} {k : α} (v : β),
      (alGet l k).isSome = true → alGet (alSet l k v) k = some v := by
  intro l
  induction l with
  | nil => intro k v h; simp [alGet] at h
  | cons kv rest ih =>
    intro k v h
    obtain ⟨k1, v1⟩ := kv
    rw [alGet] at h
    rw [alSet]
    split
    · next heq => rw [alGet, if_pos heq]
    · next heq =>
      rw [alGet, if_neg heq]
      rw [if_neg heq] at h
      exact ih v h

theorem alGet_alModify_self {α β : Type} [DecidableEq α] :
    ∀ (l : List (α × β)) (k : α) (f : β → β),
      alGet (alModify l k f) k = (alGet l k).map f := by
  intro l
  induction l with
  | nil => intro k f; rfl
  | cons kv rest ih =>
    intro k f
    obtain ⟨k1, v1⟩ := kv
    rw [alModify]
    split
    · next heq => rw [alGet, if_pos heq, alGet, if_pos heq]; rfl
    · next heq => rw [alGet, if_neg heq, alGet, if_neg heq, ih]

theorem alGet_append_right {α β : Type} [DecidableEq α] :
    ∀ {l1 : List (α × β)} (l2 : List (α × β)) {k : α},
      alGet l1 k = none → alGet (l1 ++ l2) k = alGet l2 k := by
  intro l1
  induction l1 with
  | nil => intro l2 k _; rfl
  | cons kv rest ih =>
    intro l2 k h
    obtain ⟨k1, v1⟩ := kv
    rw [alGet] at h
    rw [List.cons_append, alGet]
    split
    · next heq => rw [if_pos heq] at h; exact absurd h (by simp)
    · next heq => rw [if_neg heq] at h; exact ih l2 h

theorem alGet_touchAccounts_self (accounts : Accounts) (aid : AccountID) :
    alGet (touchAccounts accounts aid) aid
      = some ((alGet accounts aid).getD ⟨1000, []⟩) := by
  rw [touchAccounts]
  split
  · next h =>
    obtain ⟨v, hv⟩ := Option.isSome_iff_exists.mp h
    rw [hv]; rfl
  · next h =>
    rw [alGet_append_right _ (Option.not_isSome_iff_eq_none.mp h)]
    rw [Option.not_isSome_iff_eq_none.mp h]
    simp [alGet]

/-! ### Ladder ordering -/

/-- Keys of an ask ladder ascend strictly (the `BTreeMap` order). -/
def LadderAsc (l : Ladder) : Prop := (l.map Prod.fst).Pairwise (· < ·)

/-- Keys of a bid ladder descend strictly (the reversed `BTreeMap` order). -/
def LadderDesc (l : Ladder) : Prop := (l.map Prod.fst).Pairwise (· > ·)

/-- Book well-formedness: both ladders ordered and no crossed prices. -/
def BookWF (b : OrderBook) : Prop :=
  LadderAsc b.asks ∧ LadderDesc b.bids ∧
    ∀ bp ∈ b.bids.map Prod.fst, ∀ ap ∈ b.asks.map Prod.fst, bp < ap

def ExchangeWF (ex : Exchange) : Prop := ∀ pr ∈ ex.books, BookWF pr.2


theorem ladderPushAsc_keys_subset :
    ∀ (l : Ladder) (p : Price) (o : Order),
      ∀ k ∈ (ladderPushAsc l p o).map Prod.fst, k = p ∨ k ∈ l.map Prod.fst := by
  intro l
  induction l with
  | nil => intro p o k hk; simp [ladderPushAsc] at hk; left; exact hk
  | cons kv rest ih =>
    intro p o k hk
    obtain ⟨k1, q1⟩ := kv
    rw [ladderPushAsc] at hk
    simp only [List.map_cons]
    split at hk
    · simp only [List.map_cons] at hk
      rcases List.mem_cons.mp hk with h1 | h1
      · right; rw [h1]; exact List.mem_cons_self _ _
      · right; exact List.mem_cons_of_mem _ h1
    · split at hk
      · simp only [List.map_cons] at hk
        rcases List.mem_cons.mp hk with h1 | h1
        · left; exact h1
        · right; exact h1
      · simp only [List.map_cons] at hk
        rcases List.mem_cons.mp hk with h1 | h1
        · right; rw [h1]; exact List.mem_cons_self _ _
        · rcases ih p o k h1 with h2 | h2
          · left; exact h2
          · right; exact List.mem_cons_of_mem _ h2

theorem ladderPushDesc_keys_subset :
    ∀ (l : Ladder) (p : Price) (o : Order),
      ∀ k ∈ (ladderPushDesc l p o).map Prod.fst, k = p ∨ k ∈ l.map Prod.fst := by
  intro l
  induction l with
  | nil => intro p o k hk; simp [ladderPushDesc] at hk; left; exact hk
  | cons kv rest ih =>
    intro p o k hk
    obtain ⟨k1, q1⟩ := kv
    rw [ladderPushDesc] at hk
    simp only [List.map_cons]
    split at hk
    · simp only [List.map_cons] at hk
      rcases List.mem_cons.mp hk with h1 | h1
      · right; rw [h1]; exact List.mem_cons_self _ _
      · right; exact List.mem_cons_of_mem _ h1
    · split at hk
      · simp only [List.map_cons] at hk
        rcases List.mem_cons.mp hk with h1 | h1
        · left; exact h1
        · right; exact h1
      · simp only [List.map_cons] at hk
        rcases List.mem_cons.mp hk with h1 | h1
        · right; rw [h1]; exact List.mem_cons_self _ _
        · rcases ih p o k h1 with h2 | h2
          · left; exact h2
          · right; exact List.mem_cons_of_mem _ h2

theorem ladderPushAsc_sorted :
    ∀ (l : Ladder) (p : Price) (o : Order),
      LadderAsc l → LadderAsc (ladderPushAsc l p o) := by
  intro l
  induction l with
  | nil => intro p o _; simp [ladderPushAsc, LadderAsc]
  | cons kv rest ih =>
    intro p o hl
    obtain ⟨k1, q1⟩ := kv
    rw [LadderAsc, List.map_cons, List.pairwise_cons] at hl
    rw [ladderPushAsc]
    split
    · rw [LadderAsc, List.map_cons, List.pairwise_cons]
      exact hl
    · next heq =>
      split
      · next hlt =>
        rw [LadderAsc, List.map_cons, List.map_cons, List.pairwise_cons]
        refine ⟨?_, ?_⟩
        · intro b hb
          rcases List.mem_cons.mp hb with h1 | h1
          · rw [h1]; exact hlt
          · exact lt_trans hlt (hl.1 b h1)
        · rw [List.pairwise_cons]; exact hl
      · next hnlt =>
        rw [LadderAsc, List.map_cons, List.pairwise_cons]
        refine ⟨?_, ih p o hl.2⟩
        intro b hb
        rcases ladderPushAsc_keys_subset rest p o b hb with h2 | h2
        · rw [h2]
          exact lt_of_le_of_ne (not_lt.mp hnlt) (fun h => heq h.symm)
        · exact hl.1 _ h2

theorem ladderPushDesc_sorted :
    ∀ (l : Ladder) (p : Price) (o : Order),
      LadderDesc l → LadderDesc (ladderPushDesc l p o) := by
  intro l
  induction l with
  | nil => intro p o _; simp [ladderPushDesc, LadderDesc]
  | cons kv rest ih =>
    intro p o hl
    obtain ⟨k1, q1⟩ := kv
    rw [LadderDesc, List.map_cons, List.pairwise_cons] at hl
    rw [ladderPushDesc]
    split
    · rw [LadderDesc, List.map_cons, List.pairwise_cons]
      exact hl
    · next heq =>
      split
      · next hlt =>
        rw [LadderDesc, List.map_cons, List.map_cons, List.pairwise_cons]
        refine ⟨?_, ?_⟩
        · intro b hb
          rcases List.mem_cons.mp hb with h1 | h1
          · rw [h1]; exact hlt
          · exact lt_trans (hl.1 b h1) hlt
        · rw [List.pairwise_cons]; exact hl
      · next hnlt =>
        rw [LadderDesc, List.map_cons, List.pairwise_cons]
        refine ⟨?_, ih p o hl.2⟩
        intro b hb
        rcases ladderPushDesc_keys_subset rest p o b hb with h2 | h2
        · rw [h2]
          exact lt_of_le_of_ne (not_lt.mp hnlt) heq
        · exact hl.1 _ h2

/-! ### Matching-loop lemmas -/

theorem sweepQueue_no_cancel
    (settle : Accounts → Order → Order → Price → Quantity → Accounts) (ord : Order) :
    ∀ (queue : List Order) (q : Quantity) (p : Price) (index : OrderIndex)
      (accounts : Accounts) (c : ClientID) (o : OrderID),
      EngineMessage.OrderCancelled c o ∉
        (sweepQueue settle ord q p queue index accounts).1 := by
  intro queue
  induction queue with
  | nil => intro q p index accounts c o; simp [sweepQueue]
  | cons best restQ ih =>
    intro q p index accounts c o
    rw [sweepQueue]
    split
    · simp
    · split
      · simp
      · simp only [List.mem_append, List.mem_cons]
        intro hmem
        rcases hmem with h1 | h1
        · rcases h1 with h2 | h2 | h2 <;> simp_all
        · exact ih _ _ _ _ c o h1

theorem sweepQueue_ids
    (settle : Accounts → Order → Order → Price → Quantity → Accounts) (ord : Order) :
    ∀ (queue : List Order) (q : Quantity) (p : Price) (index : OrderIndex)
      (accounts : Accounts) (oid : OrderID),
      oid ∈ ((sweepQueue settle ord q p queue index accounts).2.2.1).map Order.order_id →
      oid ∈ queue.map Order.order_id := by
  intro queue
  induction queue with
  | nil => intro q p index accounts oid h; simpa [sweepQueue] using h
  | cons best restQ ih =>
    intro q p index accounts oid h
    rw [sweepQueue] at h
    split at h
    · exact h
    · split at h
      · simpa using h
      · simp only [List.map_cons, List.mem_cons]
        exact Or.inr (ih _ _ _ _ oid h)

/-- The inner while loop exits with remaining quantity only once the level's
queue is empty (`while order.quantity > 0 && !queue.is_empty()`), which
justifies `matchLoop` recursing on the tail: the code removes the emptied
level before re-entering the outer loop. -/
theorem sweepQueue_pos_queue_empty
    (settle : Accounts → Order → Order → Price → Quantity → Accounts) (ord : Order) :
    ∀ (queue : List Order) (q : Quantity) (p : Price) (index : OrderIndex)
      (accounts : Accounts),
      (sweepQueue settle ord q p queue index accounts).2.1 ≠ 0 →
      (sweepQueue settle ord q p queue index accounts).2.2.1 = [] := by
  intro queue
  induction queue with
  | nil => intro q p index accounts _; rfl
  | cons best restQ ih =>
    intro q p index accounts
    rw [sweepQueue]
    split
    · intro hq; simp at hq
    · split
      · intro hq; simp at hq
      · intro hq
        exact ih _ _ _ _ (by simpa using hq)

theorem matchLoop_no_cancel
    (settle : Accounts → Order → Order → Price → Quantity → Accounts)
    (ok : Price → Bool) (mkt : Bool) (ord : Order) :
    ∀ (L : Ladder) (q : Quantity) (index : OrderIndex) (accounts : Accounts)
      (c : ClientID) (o : OrderID),
      EngineMessage.OrderCancelled c o ∉
        (matchLoop settle ok mkt ord q L index accounts).1 := by
  intro L
  induction L with
  | nil => intro q index accounts c o; simp [matchLoop]
  | cons lv rest ih =>
    intro q index accounts c o
    obtain ⟨p, queue⟩ := lv
    rw [matchLoop]
    split
    · simp
    · split
      · split
        · next ms q1 queue1 index1 accounts1 hsw =>
          split
          · have := sweepQueue_no_cancel settle ord queue q p index accounts c o
            rw [hsw] at this
            exact this
          · split
            · next m2 q2 rest2 index2 accounts2 hrec =>
              simp only [List.mem_append]
              intro hmem
              rcases hmem with h1 | h1
              · have := sweepQueue_no_cancel settle ord queue q p index accounts c o
                rw [hsw] at this
                exact this h1
              · have := ih q1 index1 accounts1 c o
                rw [hrec] at this
                exact this h1
      · simp

theorem matchLoop_keys_sublist
    (settle : Accounts → Order → Order → Price → Quantity → Accounts)
    (ok : Price → Bool) (mkt : Bool) (ord : Order) :
    ∀ (L : Ladder) (q : Quantity) (index : OrderIndex) (accounts : Accounts),
      List.Sublist
        (((matchLoop settle ok mkt ord q L index accounts).2.2.1).map Prod.fst)
        (L.map Prod.fst) := by
  intro L
  induction L with
  | nil => intro q index accounts; simp [matchLoop]
  | cons lv rest ih =>
    intro q index accounts
    obtain ⟨p, queue⟩ := lv
    rw [matchLoop]
    split
    · exact List.Sublist.refl _
    · split
      · split
        · next ms q1 queue1 index1 accounts1 hsw =>
          split
          · split
            · simp only [List.map_cons]
              exact List.sublist_cons_self _ _
            · simp only [List.map_cons]
              exact List.Sublist.refl _
          · split
            · next m2 q2 rest2 index2 accounts2 hrec =>
              simp only [List.map_cons]
              have := ih q1 index1 accounts1
              rw [hrec] at this
              exact this.trans (List.sublist_cons_self _ _)
      · exact List.Sublist.refl _

theorem matchLoop_ladder_ids
    (settle : Accounts → Order → Order → Price → Quantity → Accounts)
    (ok : Price → Bool) (mkt : Bool) (ord : Order) :
    ∀ (L : Ladder) (q : Quantity) (index : OrderIndex) (accounts : Accounts)
      (oid : OrderID),
      oid ∈ ladderIds (matchLoop settle ok mkt ord q L index accounts).2.2.1 →
      oid ∈ ladderIds L := by
  intro L
  induction L with
  | nil => intro q index accounts oid h; simpa [matchLoop] using h
  | cons lv rest ih =>
    intro q index accounts oid
    obtain ⟨p, queue⟩ := lv
    rw [matchLoop]
    split
    · exact fun h => h
    · split
      · split
        · next ms q1 queue1 index1 accounts1 hsw =>
          split
          · split
            · intro h
              rw [ladderIds]
              exact List.mem_append_right _ h
            · intro h
              rw [ladderIds] at h ⊢
              rcases List.mem_append.mp h with h1 | h1
              · refine List.mem_append_left _ ?_
                have := sweepQueue_ids settle ord queue q p index accounts oid
                rw [hsw] at this
                exact this h1
              · exact List.mem_append_right _ h1
          · split
            · next m2 q2 rest2 index2 accounts2 hrec =>
              intro h
              have := ih q1 index1 accounts1 oid
              rw [hrec] at this
              rw [ladderIds]
              exact List.mem_append_right _ (this h)
      · exact fun h => h

theorem matchLoop_residual_guard
    (settle : Accounts → Order → Order → Price → Quantity → Accounts)
    (ok : Price → Bool) (mkt : Bool) (ord : Order)
    (R : Price → Price → Prop)
    (hmono : ∀ p k, (mkt || ok p) = false → R p k → (mkt || ok k) = false) :
    ∀ (L : Ladder) (q : Quantity) (index : OrderIndex) (accounts : Accounts),
      (L.map Prod.fst).Pairwise R →
      (matchLoop settle ok mkt ord q L index accounts).2.1 ≠ 0 →
      ∀ k ∈ ((matchLoop settle ok mkt ord q L index accounts).2.2.1).map Prod.fst,
        (mkt || ok k) = false := by
  intro L
  induction L with
  | nil => intro q index accounts _ _ k hk; simp [matchLoop] at hk
  | cons lv rest ih =>
    intro q index accounts hpair
    obtain ⟨p, queue⟩ := lv
    rw [List.map_cons, List.pairwise_cons] at hpair
    rw [matchLoop]
    split
    · next h0 => intro hq; exact absurd h0 (by simpa using hq)
    · split
      · split
        · next ms q1 queue1 index1 accounts1 hsw =>
          split
          · intro hq; simp at hq
          · split
            · next m2 q2 rest2 index2 accounts2 hrec =>
              intro hq k hk
              have := ih q1 index1 accounts1 hpair.2
              rw [hrec] at this
              exact this (by simpa using hq) k hk
      · next hguard =>
        intro hq k hk
        have hg : (mkt || ok p) = false := by
          revert hguard; cases h : (mkt || ok p) <;> simp [h]
        simp only [List.map_cons, List.mem_cons] at hk
        rcases hk with h1 | h1
        · rw [h1]; exact hg
        · exact hmono p k hg (hpair.1 k h1)

/-! ### No-crossed-book invariant -/

theorem BookWF_empty : BookWF OrderBook.empty := by
  refine ⟨?_, ?_, ?_⟩ <;> simp [OrderBook.empty, LadderAsc, LadderDesc]

theorem match_order_book_wf (b : OrderBook) (o : Order) (a : Accounts)
    (hwf : BookWF b) : BookWF (b.match_order o a).book := by
  obtain ⟨hasc, hdesc, hcross⟩ := hwf
  rw [OrderBook.match_order]
  cases hs : stopCheck b o with
  | none => exact ⟨hasc, hdesc, hcross⟩
  | some ord =>
    cases hside : ord.side with
    | Buy =>
      simp only
      have hkeys : List.Sublist
          (((matchLoop settleBuy (fun p => decide (ord.price ≥ p))
            (decide (ord.order_type = OrdType.Market)) ord ord.quantity
            b.asks b.order_index a).2.2.1).map Prod.fst)
          (b.asks.map Prod.fst) :=
        matchLoop_keys_sublist _ _ _ _ _ _ _ _
      have hasc1 := hasc.sublist hkeys
      have hcross1 : ∀ bp ∈ b.bids.map Prod.fst,
          ∀ ap ∈ ((matchLoop settleBuy (fun p => decide (ord.price ≥ p))
            (decide (ord.order_type = OrdType.Market)) ord ord.quantity
            b.asks b.order_index a).2.2.1).map Prod.fst, bp < ap :=
        fun bp hbp ap hap => hcross bp hbp ap (hkeys.subset hap)
      cases htif : ord.time_in_force with
      | ImmediateOrCancel => simp only [hside, htif]; exact ⟨hasc1, hdesc, hcross1⟩
      | FillOrKill => simp only [hside, htif]; exact ⟨hasc1, hdesc, hcross1⟩
      | Day =>
        simp only [hside, htif]
        split
        · next hq1 =>
          refine ⟨hasc1, ladderPushDesc_sorted _ _ _ hdesc, ?_⟩
          intro bp hbp ap hap
          rcases ladderPushDesc_keys_subset b.bids ord.price _ bp hbp with h1 | h1
          · have hres := matchLoop_residual_guard settleBuy
              (fun p => decide (ord.price ≥ p))
              (decide (ord.order_type = OrdType.Market)) ord (fun x y => x < y)
              (by
                intro p k hp hpk
                simp only [Bool.or_eq_false_iff, decide_eq_false_iff_not] at hp ⊢
                exact ⟨hp.1, fun hk => hp.2 (le_of_lt (lt_of_lt_of_le hpk hk))⟩)
              b.asks ord.quantity b.order_index a hasc (by simpa using hq1.ne')
              ap hap
            simp only [Bool.or_eq_false_iff, decide_eq_false_iff_not] at hres
            rw [h1]
            exact lt_of_not_le hres.2
          · exact hcross1 bp h1 ap hap
        · exact ⟨hasc1, hdesc, hcross1⟩
    | Sell =>
      simp only
      have hkeys : List.Sublist
          (((matchLoop settleSell (fun p => decide (ord.price ≤ p))
            (decide (ord.order_type = OrdType.Market)) ord ord.quantity
            b.bids b.order_index a).2.2.1).map Prod.fst)
          (b.bids.map Prod.fst) :=
        matchLoop_keys_sublist _ _ _ _ _ _ _ _
      have hdesc1 := hdesc.sublist hkeys
      have hcross1 : ∀ bp ∈ ((matchLoop settleSell (fun p => decide (ord.price ≤ p))
            (decide (ord.order_type = OrdType.Market)) ord ord.quantity
            b.bids b.order_index a).2.2.1).map Prod.fst,
          ∀ ap ∈ b.asks.map Prod.fst, bp < ap :=
        fun bp hbp ap hap => hcross bp (hkeys.subset hbp) ap hap
      cases htif : ord.time_in_force with
      | ImmediateOrCancel => simp only [hside, htif]; exact ⟨hasc, hdesc1, hcross1⟩
      | FillOrKill => simp only [hside, htif]; exact ⟨hasc, hdesc1, hcross1⟩
      | Day =>
        simp only [hside, htif]
        split
        · next hq1 =>
          refine ⟨ladderPushAsc_sorted _ _ _ hasc, hdesc1, ?_⟩
          intro bp hbp ap hap
          rcases ladderPushAsc_keys_subset b.asks ord.price _ ap hap with h1 | h1
          · have hres := matchLoop_residual_guard settleSell
              (fun p => decide (ord.price ≤ p))
              (decide (ord.order_type = OrdType.Market)) ord (fun x y => x > y)
              (by
                intro p k hp hpk
                simp only [Bool.or_eq_false_iff, decide_eq_false_iff_not] at hp ⊢
                exact ⟨hp.1, fun hk => hp.2 (le_of_lt (lt_of_le_of_lt hk hpk))⟩)
              b.bids ord.quantity b.order_index a hdesc (by simpa using hq1.ne')
              bp hbp
            simp only [Bool.or_eq_false_iff, decide_eq_false_iff_not] at hres
            rw [h1]
            exact lt_of_not_le hres.2
          · exact hcross1 bp hbp ap h1
        · exact ⟨hasc, hdesc1, hcross1⟩

theorem remove_order_book_wf (b : OrderBook) (oid : OrderID) (a : Accounts)
    (hwf : BookWF b) :
    ∀ b1 a1, b.remove_order oid a = some (b1, a1) → BookWF b1 := by
  obtain ⟨hasc, hdesc, hcross⟩ := hwf
  intro b1 a1 h
  rw [OrderBook.remove_order] at h
  split at h
  · exact absurd h (by simp)
  · next ord hidx =>
    cases hside : ord.side with
    | Buy =>
      simp only [hside] at h
      split at h
      · exact absurd h (by simp)
      · next queue hq =>
        split at h
        · exact absurd h (by simp)
        · next queue1 hrem =>
          simp only [Option.some.injEq, Prod.mk.injEq] at h
          obtain ⟨hb1, _⟩ := h
          rw [← hb1]
          refine ⟨hasc, ?_, ?_⟩
          · split
            · exact hdesc.sublist ((alErase_sublist b.bids ord.price).map Prod.fst)
            · rw [LadderDesc, alSet_map_fst]; exact hdesc
          · intro bp hbp ap hap
            refine hcross bp ?_ ap hap
            revert hbp
            split
            · exact fun hbp => ((alErase_sublist b.bids ord.price).map Prod.fst).subset hbp
            · rw [alSet_map_fst]; exact fun hbp => hbp
    | Sell =>
      simp only [hside] at h
      split at h
      · exact absurd h (by simp)
      · next queue hq =>
        split at h
        · exact absurd h (by simp)
        · next queue1 hrem =>
          simp only [Option.some.injEq, Prod.mk.injEq] at h
          obtain ⟨hb1, _⟩ := h
          rw [← hb1]
          refine ⟨?_, hdesc, ?_⟩
          · split
            · exact hasc.sublist ((alErase_sublist b.asks ord.price).map Prod.fst)
            · rw [LadderAsc, alSet_map_fst]; exact hasc
          · intro bp hbp ap hap
            refine hcross bp hbp ap ?_
            revert hap
            split
            · exact fun hap => ((alErase_sublist b.asks ord.price).map Prod.fst).subset hap
            · rw [alSet_map_fst]; exact fun hap => hap

theorem cancelFromBooks_wf :
    ∀ (books : List (InstrumentID × OrderBook)) (oid : OrderID) (a : Accounts)
      (books1 : List (InstrumentID × OrderBook)) (a1 : Accounts),
      (∀ pr ∈ books, BookWF pr.2) →
      cancelFromBooks books oid a = some (books1, a1) →
      ∀ pr ∈ books1, BookWF pr.2 := by
  intro books
  induction books with
  | nil =>
    intro oid a books1 a1 _ h
    exact absurd h (by simp [cancelFromBooks])
  | cons kb rest ih =>
    obtain ⟨iid, book⟩ := kb
    intro oid a books1 a1 hwf h
    rw [cancelFromBooks] at h
    split at h
    · next book2 accounts2 hrm =>
      simp only [Option.some.injEq, Prod.mk.injEq] at h
      obtain ⟨hb1, _⟩ := h
      rw [← hb1]
      intro pr hpr
      rcases List.mem_cons.mp hpr with h1 | h1
      · rw [h1]
        exact remove_order_book_wf book oid a (hwf (iid, book) (List.mem_cons_self _ _))
          book2 accounts2 hrm
      · exact hwf pr (List.mem_cons_of_mem _ h1)
    · split at h
      · next rest1 accounts1 hrec =>
        simp only [Option.some.injEq, Prod.mk.injEq] at h
        obtain ⟨hb1, _⟩ := h
        rw [← hb1]
        intro pr hpr
        rcases List.mem_cons.mp hpr with h1 | h1
        · rw [h1]
          exact hwf (iid, book) (List.mem_cons_self _ _)
        · exact ih oid a rest1 accounts1
            (fun x hx => hwf x (List.mem_cons_of_mem _ hx)) hrec pr h1
      · exact absurd h (by simp)

theorem newOrderFull_wf (ex : Exchange) (st rt : ℕ) (cid : ClientID)
    (aid : AccountID) (coid : Option String) (iid : InstrumentID)
    (ot : OrdType) (side : Side) (qty : Quantity) (price : Option Price)
    (tif : Option TimeInForce) (hwf : ExchangeWF ex) :
    ExchangeWF (ex.newOrderFull st rt cid aid coid iid ot side qty price tif).1 := by
  rw [Exchange.newOrderFull]
  split
  · next hins =>
    dsimp only
    split
    · exact fun pr hpr => hwf pr hpr
    · intro pr hpr
      simp only at hpr
      rcases alSet_mem hpr with h1 | h1
      · rw [h1]
        apply match_order_book_wf
        cases hG : alGet ex.books iid with
        | none => simpa [hG] using BookWF_empty
        | some b => exact hwf (iid, b) (alGet_mem hG)
      · exact hwf pr h1
  · exact hwf

theorem handle_message_wf (ex : Exchange) (m : EngineMessage)
    (hwf : ExchangeWF ex) : ExchangeWF (ex.handle_message m).1 := by
  cases m with
  | CreateInstrument st rt iid =>
    rw [Exchange.handle_message]
    intro pr hpr
    simp only at hpr
    split at hpr
    · exact hwf pr hpr
    · rcases List.mem_append.mp hpr with h1 | h1
      · exact hwf pr h1
      · simp only [List.mem_singleton] at h1
        rw [h1]
        exact BookWF_empty
  | NewOrder st rt cid aid coid iid ot side qty price tif =>
    rw [Exchange.handle_message]
    split
    next ex1 responses hno =>
    have := newOrderFull_wf ex st rt cid aid coid iid ot side qty price tif hwf
    rw [hno] at this
    exact this
  | CancelOrder st rt cid aid oid =>
    rw [Exchange.handle_message]
    split
    · next books1 accounts1 hc =>
      exact cancelFromBooks_wf ex.books oid ex.accounts books1 accounts1 hwf hc
    · exact hwf
  | AmendOrder st rt cid oid nq np ntif => exact hwf
  | AdvanceTime st rt cid ts => exact hwf
  | OrderAccepted cid oid => exact hwf
  | OrderRejected r cid => exact hwf
  | OrderFilled cid oid f r p i => exact hwf
  | OrderCancelled cid oid => exact hwf
  | InvalidMessage r raw => exact hwf
  | LogEvent cid msg => exact hwf

theorem runCmds_wf :
    ∀ (cmds : List EngineMessage) (ex : Exchange),
      ExchangeWF ex → ExchangeWF (runCmds ex cmds) := by
  intro cmds
  induction cmds with
  | nil => intro ex h; exact h
  | cons m rest ih => intro ex h; exact ih _ (handle_message_wf ex m h)

/-- C8 (amended). After any sequence of commands processed from a fresh
engine, every book that has both a non-empty bid side and a non-empty ask
side satisfies best_bid < best_ask. (The second half of the original claim
is false — a Market Day residual is posted at the order's price field, 0
when absent, rather than discarded — but such a residual only rests when
the opposite side is empty, so the book is still never crossed.) -/
theorem C8_no_crossed_book :
    ∀ (cmds : List EngineMessage) (iid : InstrumentID) (bb ba : Price),
      bestBid (runCmds Exchange.new cmds) iid = some bb →
      bestAsk (runCmds Exchange.new cmds) iid = some ba →
      bb < ba := by
  intro cmds iid bb ba hbb hba
  have hwf : ExchangeWF (runCmds Exchange.new cmds) :=
    runCmds_wf cmds Exchange.new (by intro pr hpr; simp [Exchange.new] at hpr)
  rw [bestBid, bookAt] at hbb
  rw [bestAsk, bookAt] at hba
  cases hG : alGet (runCmds Exchange.new cmds).books iid with
  | none => rw [hG] at hbb; simp [OrderBook.empty] at hbb
  | some b =>
    rw [hG] at hbb hba
    simp only [Option.getD_some] at hbb hba
    have hbwf := hwf (iid, b) (alGet_mem hG)
    rcases Option.map_eq_some'.mp hbb with ⟨lvb, hlvb, hfb⟩
    rcases Option.map_eq_some'.mp hba with ⟨lva, hlva, hfa⟩
    have hmb : lvb ∈ b.bids := List.mem_of_mem_head? (Option.mem_def.mpr hlvb)
    have hma : lva ∈ b.asks := List.mem_of_mem_head? (Option.mem_def.mpr hlva)
    rw [← hfb, ← hfa]
    exact hbwf.2.2 lvb.1 (List.mem_map_of_mem _ hmb) lva.1 (List.mem_map_of_mem _ hma)

/-- A reachable two-sided book: bid 5 @ 10 and ask 5 @ 20 rest on X. -/
def exTwoSided : Exchange := runCmds Exchange.new
  [createX,
   .NewOrder 0 0 cCB "B" none "X" OrdType.Limit Side.Buy 5 (some 10) none,
   .NewOrder 0 0 cCA "A" none "X" OrdType.Limit Side.Sell 5 (some 20) none]

def ordB10 : Order :=
  ⟨1, "", 10, 5, 0, 0, Side.Buy, OrdType.Limit, TimeInForce.Day, "X", "B", cCB⟩

def ordA20 : Order :=
  ⟨2, "", 20, 5, 0, 0, Side.Sell, OrdType.Limit, TimeInForce.Day, "X", "A", cCA⟩

theorem exTwoSided_book :
    bookAt exTwoSided "X" = ⟨[(10, [ordB10])], [(20, [ordA20])],
      [(1, ordB10), (2, ordA20)]⟩ := by
  norm_num [exTwoSided, runCmds, Exchange.handle_message, Exchange.newOrderFull,
    OrderBook.match_order, stopCheck, matchLoop, sweepQueue, settleBuy, settleSell,
    touchAccounts, bankrollOf, alGet, alSet, alErase, alInsert, alModify,
    alEntryModify, posAdd, posSub, ladderPushAsc, ladderPushDesc,
    OrderBook.empty, Exchange.new, cCA, cCB, createX, bookAt, ordB10, ordA20]
  all_goals decide

/-- Witness for C8: a concrete reachable two-sided book, whose best bid 10
and best ask 20 the theorem proves uncrossed. -/
theorem C8_no_crossed_book_witness :
    bestBid exTwoSided "X" = some 10 ∧ bestAsk exTwoSided "X" = some 20
      ∧ (10 : ℚ) < 20 := by
  have h1 : bestBid exTwoSided "X" = some 10 := by
    rw [bestBid]
    rw [show bookAt exTwoSided "X" = ⟨[(10, [ordB10])], [(20, [ordA20])],
      [(1, ordB10), (2, ordA20)]⟩ from exTwoSided_book]
    rfl
  have h2 : bestAsk exTwoSided "X" = some 20 := by
    rw [bestAsk]
    rw [show bookAt exTwoSided "X" = ⟨[(10, [ordB10])], [(20, [ordA20])],
      [(1, ordB10), (2, ordA20)]⟩ from exTwoSided_book]
    rfl
  exact ⟨h1, h2,
    C8_no_crossed_book
      [createX,
       .NewOrder 0 0 cCB "B" none "X" OrdType.Limit Side.Buy 5 (some 10) none,
       .NewOrder 0 0 cCA "A" none "X" OrdType.Limit Side.Sell 5 (some 20) none]
      "X" 10 20 h1 h2⟩

/-! ### IOC and acceptance lemmas -/

theorem stopCheck_fields (b : OrderBook) (o : Order) (ord : Order)
    (h : stopCheck b o = some ord) :
    ord.side = o.side ∧ ord.time_in_force = o.time_in_force
      ∧ ord.quantity = o.quantity ∧ ord.price = o.price := by
  rw [stopCheck] at h
  repeat' split at h
  all_goals
    first
    | (injection h with h2; subst h2; exact ⟨rfl, rfl, rfl, rfl⟩)
    | exact absurd h (by simp)

theorem match_order_fills_no_cancel (b : OrderBook) (o : Order) (a : Accounts)
    (c : ClientID) (oid : OrderID) :
    EngineMessage.OrderCancelled c oid ∉ (b.match_order o a).fills := by
  rw [OrderBook.match_order]
  cases hs : stopCheck b o with
  | none => simp
  | some ord =>
    cases hside : ord.side with
    | Buy =>
      cases htif : ord.time_in_force with
      | ImmediateOrCancel =>
        simp only [hside, htif]
        exact matchLoop_no_cancel _ _ _ _ b.asks ord.quantity b.order_index a c oid
      | FillOrKill =>
        simp only [hside, htif]
        exact matchLoop_no_cancel _ _ _ _ b.asks ord.quantity b.order_index a c oid
      | Day =>
        simp only [hside, htif]
        split
        · exact matchLoop_no_cancel _ _ _ _ b.asks ord.quantity b.order_index a c oid
        · exact matchLoop_no_cancel _ _ _ _ b.asks ord.quantity b.order_index a c oid
    | Sell =>
      cases htif : ord.time_in_force with
      | ImmediateOrCancel =>
        simp only [hside, htif]
        exact matchLoop_no_cancel _ _ _ _ b.bids ord.quantity b.order_index a c oid
      | FillOrKill =>
        simp only [hside, htif]
        exact matchLoop_no_cancel _ _ _ _ b.bids ord.quantity b.order_index a c oid
      | Day =>
        simp only [hside, htif]
        split
        · exact matchLoop_no_cancel _ _ _ _ b.bids ord.quantity b.order_index a c oid
        · exact matchLoop_no_cancel _ _ _ _ b.bids ord.quantity b.order_index a c oid

theorem match_order_ioc_resting_ids (b : OrderBook) (o : Order) (a : Accounts)
    (htif : o.time_in_force = TimeInForce.ImmediateOrCancel) :
    ∀ oid ∈ restingIds (b.match_order o a).book, oid ∈ restingIds b := by
  intro oid hmem
  rw [OrderBook.match_order] at hmem
  cases hs : stopCheck b o with
  | none => rw [hs] at hmem; exact hmem
  | some ord =>
    rw [hs] at hmem
    have htif2 : ord.time_in_force = TimeInForce.ImmediateOrCancel :=
      (stopCheck_fields b o ord hs).2.1.trans htif
    cases hside : ord.side with
    | Buy =>
      simp only [hside, htif2] at hmem
      rw [restingIds] at hmem ⊢
      rcases List.mem_append.mp hmem with h1 | h1
      · exact List.mem_append_left _ h1
      · exact List.mem_append_right _
          (matchLoop_ladder_ids _ _ _ _ b.asks ord.quantity b.order_index a oid h1)
    | Sell =>
      simp only [hside, htif2] at hmem
      rw [restingIds] at hmem ⊢
      rcases List.mem_append.mp hmem with h1 | h1
      · exact List.mem_append_left _
          (matchLoop_ladder_ids _ _ _ _ b.bids ord.quantity b.order_index a oid h1)
      · exact List.mem_append_right _ h1

theorem match_order_accounts_opp_empty (b : OrderBook) (o : Order) (a : Accounts)
    (h : oppLadder b o.side = []) : (b.match_order o a).accounts = a := by
  rw [OrderBook.match_order]
  cases hs : stopCheck b o with
  | none => rfl
  | some ord =>
    have hside := (stopCheck_fields b o ord hs).1
    cases ho : o.side with
    | Buy =>
      rw [ho, oppLadder] at h
      rw [ho] at hside
      simp only [hside, h]
      cases htif : ord.time_in_force with
      | ImmediateOrCancel => simp [matchLoop]
      | FillOrKill => simp [matchLoop]
      | Day =>
        simp only [matchLoop]
        split <;> rfl
    | Sell =>
      rw [ho, oppLadder] at h
      rw [ho] at hside
      simp only [hside, h]
      cases htif : ord.time_in_force with
      | ImmediateOrCancel => simp [matchLoop]
      | FillOrKill => simp [matchLoop]
      | Day =>
        simp only [matchLoop]
        split <;> rfl

/-- Fresh engine with only instrument X created. -/
def ex0X : Exchange := runCmds Exchange.new [createX]

/-- C6 counterexample. An IOC buy 5 @ 10 against an empty opposite book
produces exactly [OrderAccepted] — no OrderCancelled with filled quantity 0
is ever generated, contradicting the claimed Accepted-then-Cancelled pair.
(No resting order is left, which is the part of the claim that holds.) -/
theorem C6_ioc_no_cancel_event :
    (ex0X.newOrderFull 0 0 cCB "B" none "X" OrdType.Limit Side.Buy 5 (some 10)
      (some TimeInForce.ImmediateOrCancel)).2 = [.OrderAccepted cCB 1]
    ∧ bookAt (ex0X.newOrderFull 0 0 cCB "B" none "X" OrdType.Limit Side.Buy 5
      (some 10) (some TimeInForce.ImmediateOrCancel)).1 "X" = OrderBook.empty := by
  norm_num [ex0X, runCmds, Exchange.handle_message, Exchange.newOrderFull,
    OrderBook.match_order, stopCheck, matchLoop, sweepQueue, settleBuy, settleSell,
    touchAccounts, bankrollOf, alGet, alSet, alErase, alInsert, alModify,
    alEntryModify, posAdd, posSub, ladderPushAsc, ladderPushDesc,
    OrderBook.empty, Exchange.new, cCB, createX, bookAt]

/-- C6 (amended). For every ImmediateOrCancel NewOrder the unfilled
remainder is discarded without posting: the engine emits no OrderCancelled
at all (fills, if any, are followed only by the OrderAccepted disposition,
or the order is rejected), and the instrument's book gains no resting order
— every order id resting after the command was already resting before. -/
theorem C6_ioc_residual_discarded :
    ∀ (ex : Exchange) (st rt : ℕ) (cid : ClientID) (aid : AccountID)
      (coid : Option String) (iid : InstrumentID) (ot : OrdType) (side : Side)
      (qty : Quantity) (price : Option Price),
      (∀ c o, EngineMessage.OrderCancelled c o ∉
        (ex.newOrderFull st rt cid aid coid iid ot side qty price
          (some TimeInForce.ImmediateOrCancel)).2)
      ∧ (∀ oid, oid ∈ restingIds (bookAt
            (ex.newOrderFull st rt cid aid coid iid ot side qty price
              (some TimeInForce.ImmediateOrCancel)).1 iid) →
          oid ∈ restingIds (bookAt ex iid)) := by
  intro ex st rt cid aid coid iid ot side qty price
  constructor
  · intro c o
    rw [Exchange.newOrderFull]
    split
    · dsimp only
      split
      · simp
      · intro hmem
        rcases List.mem_append.mp hmem with h1 | h1
        · exact match_order_fills_no_cancel _ _ _ c o h1
        · simp at h1
    · simp
  · intro oid hmem
    rw [Exchange.newOrderFull] at hmem
    split at hmem
    · next hins =>
      dsimp only at hmem
      split at hmem
      · exact hmem
      · rw [bookAt] at hmem
        simp only [alGet_alSet_self _ hins, Option.getD_some] at hmem
        exact match_order_ioc_resting_ids _ _ _ rfl oid hmem
    · exact hmem

/-- Witness for C6: applying the theorem at the concrete empty-book IOC buy
shows no OrderCancelled is emitted for it. -/
theorem C6_ioc_residual_discarded_witness :
    EngineMessage.OrderCancelled cCB 1 ∉
      (ex0X.newOrderFull 0 0 cCB "B" none "X" OrdType.Limit Side.Buy 5 (some 10)
        (some TimeInForce.ImmediateOrCancel)).2 :=
  (C6_ioc_residual_discarded ex0X 0 0 cCB "B" none "X" OrdType.Limit Side.Buy 5
    (some 10)).1 cCB 1

theorem append_singleton_eq_singleton {α : Type} {l : List α} {a b : α}
    (h : l ++ [a] = [b]) : l = [] ∧ a = b := by
  cases l with
  | nil => simpa using h
  | cons x xs =>
    rw [List.cons_append] at h
    simp only [List.cons.injEq] at h
    rcases h with ⟨_, h2⟩
    exact absurd (congrArg List.length h2) (by simp)

/-- C4 counterexample. A SELL limit order is rejected for insufficient
funds: a fresh account (cash 1000) selling 200 @ 10 (price × qty = 2000)
is rejected, contradicting "sell orders ... are never rejected for
insufficient cash". -/
theorem C4_sell_rejected_insufficient :
    (ex0X.newOrderFull 0 0 cCA "A" none "X" OrdType.Limit Side.Sell 200
      (some 10) none).2 = [.OrderRejected "Insufficient funds" cCA] := by
  norm_num [ex0X, runCmds, Exchange.handle_message, Exchange.newOrderFull,
    OrderBook.match_order, stopCheck, matchLoop, sweepQueue, settleBuy, settleSell,
    touchAccounts, bankrollOf, alGet, alSet, alErase, alInsert, alModify,
    alEntryModify, posAdd, posSub, ladderPushAsc, ladderPushDesc,
    OrderBook.empty, Exchange.new, cCA, createX]

/-- C4 (amended). The cash reservation at acceptance is side-blind: for
every NewOrder on a known instrument, the order is rejected with
"Insufficient funds" iff the account's cash (after first-touch endowment)
is below price × qty (price 0 when absent) — regardless of side — and when
it is accepted and the opposite ladder is empty (so no fills occur), the
account's cash decreases by exactly price × qty. -/
theorem C4_cash_reservation_uniform :
    ∀ (ex : Exchange) (st rt : ℕ) (cid : ClientID) (aid : AccountID)
      (coid : Option String) (iid : InstrumentID) (ot : OrdType) (side : Side)
      (qty : Quantity) (price : Option Price) (tif : Option TimeInForce),
      (alGet ex.books iid).isSome = true →
      (((ex.newOrderFull st rt cid aid coid iid ot side qty price tif).2
          = [.OrderRejected "Insufficient funds" cid])
        ↔ (bankrollOf (touchAccounts ex.accounts aid) aid).cash
            < (price.getD 0) * (qty : ℚ))
      ∧ (oppLadder (bookAt ex iid) side = [] →
          ¬ (bankrollOf (touchAccounts ex.accounts aid) aid).cash
              < (price.getD 0) * (qty : ℚ) →
          (bankrollOf
            (ex.newOrderFull st rt cid aid coid iid ot side qty price tif).1.accounts
            aid).cash
            = (bankrollOf (touchAccounts ex.accounts aid) aid).cash
              - (price.getD 0) * (qty : ℚ)) := by
  intro ex st rt cid aid coid iid ot side qty price tif hins
  constructor
  · constructor
    · intro hresp
      by_contra hlt
      rw [Exchange.newOrderFull, if_pos hins] at hresp
      dsimp only at hresp
      rw [if_neg hlt] at hresp
      obtain ⟨_, hab⟩ := append_singleton_eq_singleton hresp
      simp at hab
    · intro hlt
      rw [Exchange.newOrderFull, if_pos hins]
      dsimp only
      rw [if_pos hlt]
  · intro hopp hnlt
    rw [Exchange.newOrderFull, if_pos hins]
    dsimp only
    rw [if_neg hnlt]
    dsimp only
    rw [match_order_accounts_opp_empty _ _ _ (by exact hopp)]
    rw [bankrollOf, alGet_alModify_self, alGet_touchAccounts_self]
    rw [bankrollOf, alGet_touchAccounts_self]
    rfl

/-- Witness for C4: on a fresh book, A's sell 5 @ 10 is not rejected
(1000 ≥ 50) and A's cash after acceptance is 1000 − 50 = 950; A's sell
200 @ 10 is rejected for insufficient funds (1000 < 2000). -/
theorem C4_cash_reservation_uniform_witness :
    (bankrollOf
      (ex0X.newOrderFull 0 0 cCA "A" none "X" OrdType.Limit Side.Sell 5
        (some 10) none).1.accounts "A").cash = 950
    ∧ (ex0X.newOrderFull 0 0 cCA "A" none "X" OrdType.Limit Side.Sell 200
        (some 10) none).2 = [.OrderRejected "Insufficient funds" cCA] := by
  have hins : (alGet ex0X.books "X").isSome = true := by
    norm_num [ex0X, runCmds, Exchange.handle_message, Exchange.new, createX,
      alGet, OrderBook.empty]
  have hopp : oppLadder (bookAt ex0X "X") Side.Sell = [] := by
    norm_num [ex0X, runCmds, Exchange.handle_message, Exchange.new, createX,
      alGet, OrderBook.empty, bookAt, oppLadder]
  have hc : (bankrollOf (touchAccounts ex0X.accounts "A") "A").cash = 1000 := by
    norm_num [ex0X, runCmds, Exchange.handle_message, Exchange.new, createX,
      alGet, touchAccounts, bankrollOf]
  constructor
  · have h := (C4_cash_reservation_uniform ex0X 0 0 cCA "A" none "X"
      OrdType.Limit Side.Sell 5 (some 10) none hins).2 hopp
      (by rw [hc]; norm_num)
    rw [h, hc]
    norm_num
  · exact (C4_cash_reservation_uniform ex0X 0 0 cCA "A" none "X"
      OrdType.Limit Side.Sell 200 (some 10) none hins).1.mpr
      (by rw [hc]; norm_num)

/-- C10. CancelOrder performs no ownership check: the state change depends
only on the order id (two cancel commands for the same id but different
account/client fields produce identical states); whenever the books-loop
removal succeeds the reply is OrderCancelled; and the refund of a
successful removal is credited via `cancelRefund` to the account recorded
on the resting order itself, never to the command's account. -/
theorem C10_cancel_ignores_ownership :
    ∀ (ex : Exchange) (oid : OrderID) (st1 rt1 st2 rt2 : ℕ) (c1 c2 : ClientID)
      (a1 a2 : AccountID),
      ((ex.handle_message (.CancelOrder st1 rt1 c1 a1 oid)).1
        = (ex.handle_message (.CancelOrder st2 rt2 c2 a2 oid)).1)
      ∧ ((cancelFromBooks ex.books oid ex.accounts).isSome = true →
          (ex.handle_message (.CancelOrder st1 rt1 c1 a1 oid)).2
            = some (.OrderCancelled c1 oid))
      ∧ (∀ (b : OrderBook) (ord : Order) (bk1 : OrderBook) (ac1 : Accounts),
          alGet b.order_index oid = some ord →
          b.remove_order oid ex.accounts = some (bk1, ac1) →
          ac1 = cancelRefund ex.accounts ord) := by
  intro ex oid st1 rt1 st2 rt2 c1 c2 a1 a2
  refine ⟨?_, ?_, ?_⟩
  · rw [Exchange.handle_message, Exchange.handle_message]
    cases h : cancelFromBooks ex.books oid ex.accounts with
    | none => rfl
    | some pr => obtain ⟨books1, accounts1⟩ := pr; rfl
  · intro hs
    rw [Exchange.handle_message]
    obtain ⟨pr, hpr⟩ := Option.isSome_iff_exists.mp hs
    obtain ⟨books1, accounts1⟩ := pr
    rw [hpr]
  · intro b ord bk1 ac1 hidx hrm
    rw [OrderBook.remove_order, hidx] at hrm
    cases hside : ord.side with
    | Buy =>
      simp only [hside] at hrm
      split at hrm
      · exact absurd hrm (by simp)
      · next queue hq =>
        split at hrm
        · exact absurd hrm (by simp)
        · next queue1 hr =>
          simp only [Option.some.injEq, Prod.mk.injEq] at hrm
          exact hrm.2.symm
    | Sell =>
      simp only [hside] at hrm
      split at hrm
      · exact absurd hrm (by simp)
      · next queue hq =>
        split at hrm
        · exact absurd hrm (by simp)
        · next queue1 hr =>
          simp only [Option.some.injEq, Prod.mk.injEq] at hrm
          exact hrm.2.symm

/-- A's buy 5 @ 10 resting on X (order id 1). -/
def exBid1 : Exchange := runCmds Exchange.new
  [createX, .NewOrder 0 0 cCA "A" none "X" OrdType.Limit Side.Buy 5 (some 10) none]

/-- Witness for C10: account B's cancel of A's resting order 1 succeeds,
yields the same state as A's own cancel, and replies OrderCancelled. -/
theorem C10_cancel_ignores_ownership_witness :
    ((exBid1.handle_message (.CancelOrder 0 0 cCB "B" 1)).1
      = (exBid1.handle_message (.CancelOrder 0 0 cCA "A" 1)).1)
    ∧ (exBid1.handle_message (.CancelOrder 0 0 cCB "B" 1)).2
      = some (.OrderCancelled cCB 1) := by
  refine ⟨(C10_cancel_ignores_ownership exBid1 1 0 0 0 0 cCB cCA "B" "A").1,
    (C10_cancel_ignores_ownership exBid1 1 0 0 0 0 cCB cCA "B" "A").2.1 ?_⟩
  norm_num [exBid1, runCmds, Exchange.handle_message, Exchange.newOrderFull,
    OrderBook.match_order, stopCheck, matchLoop, sweepQueue, settleBuy, settleSell,
    touchAccounts, bankrollOf, alGet, alSet, alErase, alInsert, alModify,
    alEntryModify, posAdd, posSub, ladderPushAsc, ladderPushDesc,
    OrderBook.empty, Exchange.new, cCA, cCB, createX,
    cancelFromBooks, OrderBook.remove_order, cancelRefund, removeFirstById]
